import Mathlib

/-!
Verification of the `buildCreateApi` factory of RTK Query
(`src/unnamed/part_001`), a configuration-composition and
endpoint-registry mechanism.

The TypeScript source mutates a shared `context` object and an `api`
object in place; here that state is threaded explicitly through a
record `ApiState`.  JavaScript objects used as string-keyed maps with
insertion order (`context.endpointDefinitions`, iterated via
`Object.entries`) are modelled as association lists `List (String × _)`
with a `setKey` operation matching `obj[k] = v` (update in place when
the key exists, append otherwise).  An optional field of an options
object is `Option _` (a field explicitly set to `undefined` is modelled
as absent).  `typeof process !== 'undefined' && process.env.NODE_ENV
=== 'development'` is modelled by a boolean `dev` parameter.
-/

namespace RTKQuery

/-- The `DefinitionType` enum from `endpointDefinitions`; `part_001`
uses its three members `query`, `mutation` and `infinitequery` when
building endpoint definitions. -/
inductive DefinitionType where
  | query
  | mutation
  | infinitequery
deriving DecidableEq, Repr

/-- The `infiniteQueryOptions` object of an infinite-query endpoint, as
far as the development-mode validation in `injectEndpoints` inspects
it: `maxPages` (`some` models `typeof maxPages === 'number'`) and
whether `getPreviousPageParam` is a function. -/
structure InfiniteQueryOptions where
  maxPages : Option Int := none
  hasGetPreviousPageParam : Bool := false
deriving DecidableEq, Repr

/-- The user-supplied argument `x` of a builder call
(`build.query(x)` / `build.mutation(x)` / `build.infiniteQuery(x)`).
`config` stands for the remaining configuration fields, which
`injectEndpoints` treats as opaque; `infiniteQueryOptions` is the one
field the development-mode validation reads. -/
structure EndpointPayload where
  config : Nat
  infiniteQueryOptions : Option InfiniteQueryOptions := none
deriving DecidableEq, Repr

/-- An evaluated endpoint definition: the builder spreads the user
payload and adds a `type` tag (`{ ...x, type: DefinitionType.query }`
and so on). -/
structure Definition where
  payload : EndpointPayload
  type : DefinitionType
deriving DecidableEq, Repr

/-- `isInfiniteQueryDefinition` from `endpointDefinitions`: tests the
`type` tag of a definition. -/
def isInfiniteQueryDefinition (d : Definition) : Bool :=
  d.type = DefinitionType.infinitequery

/-- The builder object handed to `inject.endpoints` in
`injectEndpoints` (lines 438–443 of `part_001`). -/
structure EndpointBuilder where
  query : EndpointPayload → Definition
  mutation : EndpointPayload → Definition
  infiniteQuery : EndpointPayload → Definition

/-- The concrete builder `injectEndpoints` constructs:
`query: (x) => ({ ...x, type: DefinitionType.query })` etc. -/
def endpointBuilder : EndpointBuilder where
  query := fun x => { payload := x, type := DefinitionType.query }
  mutation := fun x => { payload := x, type := DefinitionType.mutation }
  infiniteQuery := fun x => { payload := x, type := DefinitionType.infinitequery }

/-- The `overrideExisting` option of an `injectEndpoints` call.  The
source tests `overrideExisting !== true` and then
`overrideExisting === 'throw'`; every other value (absent, `false`,
anything else) behaves alike and is collapsed into `isFalse`. -/
inductive OverrideExisting where
  | isTrue
  | isThrow
  | isFalse
deriving DecidableEq, Repr

/-! ### String-keyed objects as association lists -/

/-- The keys of a string-keyed object. -/
def keys (l : List (String × Definition)) : List String :=
  l.map Prod.fst

/-- Property lookup `obj[k]`. -/
def getKey (l : List (String × Definition)) (n : String) : Option Definition :=
  (l.find? (fun p => p.1 = n)).map Prod.snd

/-- Property assignment `obj[k] = v`: replaces in place when the key
exists (keeping its position in insertion order), appends otherwise. -/
def setKey : List (String × Definition) → String → Definition → List (String × Definition)
  | [], n, d => [(n, d)]
  | (k, v) :: rest, n, d =>
      if k = n then (n, d) :: rest else (k, v) :: setKey rest n d

@[simp]
theorem getKey_setKey_self (l : List (String × Definition)) (n : String) (d : Definition) :
    getKey (setKey l n d) n = some d := by
  induction l with
  | nil => simp [setKey, getKey]
  | cons p rest ih =>
      by_cases h : p.1 = n
      · simp [setKey, getKey, h]
      · simpa [setKey, getKey, h] using ih

@[simp]
theorem getKey_nil (m : String) : getKey [] m = none := rfl

@[simp]
theorem getKey_cons (p : String × Definition) (l : List (String × Definition)) (m : String) :
    getKey (p :: l) m = if p.1 = m then some p.2 else getKey l m := by
  by_cases h : p.1 = m <;> simp [getKey, List.find?, h]

theorem getKey_setKey_ne (l : List (String × Definition)) (n m : String) (d : Definition)
    (h : m ≠ n) : getKey (setKey l n d) m = getKey l m := by
  induction l with
  | nil => simp [setKey, Ne.symm h]
  | cons p rest ih =>
      by_cases hk : p.1 = n
      · simp [setKey, hk, Ne.symm h]
      · simp [setKey, hk, ih]

theorem mem_keys_setKey_of_mem (l : List (String × Definition)) (n m : String) (d : Definition)
    (h : m ∈ keys l) : m ∈ keys (setKey l n d) := by
  induction l with
  | nil => simp [keys] at h
  | cons p rest ih =>
      by_cases hk : p.1 = n
      · simp only [keys, List.map_cons, List.mem_cons] at h
        rcases h with h | h
        · simp [setKey, keys, hk, hk ▸ h]
        · simp [setKey, keys, hk, h]
      · simp only [keys, List.map_cons, List.mem_cons] at h
        rcases h with h | h
        · simp [setKey, keys, hk, h]
        · simp only [setKey, hk, if_false, keys, List.map_cons, List.mem_cons]
          exact Or.inr (ih h)

theorem not_mem_keys_setKey (l : List (String × Definition)) (n m : String) (d : Definition)
    (hm : m ∉ keys l) (hne : m ≠ n) : m ∉ keys (setKey l n d) := by
  induction l with
  | nil => simp [setKey, keys, hne]
  | cons p rest ih =>
      simp only [keys, List.map_cons, List.mem_cons, not_or] at hm
      by_cases hk : p.1 = n
      · simp [setKey, keys, hk, hne, hm.2]
      · simp only [setKey, hk, if_false, keys, List.map_cons, List.mem_cons, not_or]
        exact ⟨hm.1, ih hm.2⟩

/-! ### The mutable state of one `baseCreateApi` call

`context.endpointDefinitions` and `optionsWithDefaults.tagTypes` are
mutated in place by `injectEndpoints` / `enhanceEndpoints`; the calls
`m.injectEndpoint(endpointName, definition)` made on the initialized
modules are recorded in a log (module index, endpoint name,
definition), in chronological order.  `apiUid` is the `nanoid()` stored
in the context and stands in for the identity of the `api` object. -/

structure ApiState where
  endpointDefinitions : List (String × Definition)
  tagTypes : List String
  moduleInjectLog : List (Nat × String × Definition)
  apiUid : Nat
deriving Repr

/-- The argument of an `injectEndpoints` call: an `endpoints` callback
evaluated with the builder, and `overrideExisting`. -/
structure InjectArgs where
  endpoints : EndpointBuilder → List (String × Definition)
  overrideExisting : OverrideExisting := OverrideExisting.isFalse

/-- The development-mode validation of an infinite-query definition
(lines 468–490 of `part_001`): destructures
`definition.infiniteQueryOptions` (a TypeError when it is absent) and
checks `maxPages` and `getPreviousPageParam`.  Returns the error
thrown, if any. -/
def devInfiniteQueryCheck (endpointName : String) (d : Definition) : Option String :=
  if isInfiniteQueryDefinition d then
    match d.payload.infiniteQueryOptions with
    | none => some "TypeError: cannot destructure infiniteQueryOptions"
    | some iqo =>
        match iqo.maxPages with
        | none => none
        | some mp =>
            if mp < 1 then
              some ("maxPages for endpoint " ++ endpointName ++
                " must be a number greater than 0")
            else if !iqo.hasGetPreviousPageParam then
              some ("getPreviousPageParam for endpoint " ++ endpointName ++
                " must be a function if maxPages is used")
            else none
  else none

/-- The calls `m.injectEndpoint(endpointName, definition)` made on the
initialized modules, in order, when one endpoint is registered:
`for (const m of initializedModules) m.injectEndpoint(...)`. -/
def moduleCalls (numModules : Nat) (n : String) (d : Definition) :
    List (Nat × String × Definition) :=
  (List.range numModules).map (fun i => (i, n, d))

/-- The `for (const [endpointName, definition] of Object.entries(...))`
loop of `injectEndpoints` (lines 445–496 of `part_001`).  State already
mutated before a `throw` is kept, so the result is the state paired
with the error thrown, if any.  In the skip branch the development-mode
`console.error` has no effect on the state and is not recorded. -/
def injectLoop (dev : Bool) (ov : OverrideExisting) (numModules : Nat) :
    List (String × Definition) → ApiState → ApiState × Option String
  | [], st => (st, none)
  | (endpointName, d) :: rest, st =>
      if ov ≠ OverrideExisting.isTrue ∧ endpointName ∈ keys st.endpointDefinitions then
        if ov = OverrideExisting.isThrow then
          (st, some ("called injectEndpoints to override already-existing endpointName "
            ++ endpointName ++ " without specifying overrideExisting: true"))
        else
          injectLoop dev ov numModules rest st
      else
        match (if dev then devInfiniteQueryCheck endpointName d else none) with
        | some e => (st, some e)
        | none =>
            injectLoop dev ov numModules rest
              { st with
                endpointDefinitions := setKey st.endpointDefinitions endpointName d
                moduleInjectLog := st.moduleInjectLog ++
                  moduleCalls numModules endpointName d }

/-- `injectEndpoints` (lines 435–499 of `part_001`): evaluates
`inject.endpoints` with the builder and runs the registration loop.
It returns the `api` object, i.e. the updated state. -/
def injectEndpoints (dev : Bool) (numModules : Nat) (inject : InjectArgs)
    (st : ApiState) : ApiState × Option String :=
  injectLoop dev inject.overrideExisting numModules (inject.endpoints endpointBuilder) st

/-- The value of the `refetchOnMountOrArgChange` option: a boolean or a
number of seconds. -/
inductive RefetchValue where
  | asBool : Bool → RefetchValue
  | asNum : Int → RefetchValue
deriving DecidableEq, Repr

/-- The `invalidationBehavior` option. -/
inductive InvalidationBehavior where
  | delayed
  | immediately
deriving DecidableEq, Repr

/-- The options accepted by `createApi`, restricted to the fields the
factory itself reads (`CreateApiOptions`, lines 22–302 of `part_001`).
`none` models an absent field. -/
structure ApiOptions where
  reducerPath : Option String := none
  tagTypes : Option (List String) := none
  keepUnusedDataFor : Option Int := none
  refetchOnMountOrArgChange : Option RefetchValue := none
  refetchOnFocus : Option Bool := none
  refetchOnReconnect : Option Bool := none
  invalidationBehavior : Option InvalidationBehavior := none
  endpoints : EndpointBuilder → List (String × Definition)

/-- The data fields of `optionsWithDefaults` (lines 353–388 of
`part_001`) after the defaults and the spread of `options` are merged.
The `serializeQueryArgs` and `extractRehydrationInfo` closures also
installed there are modelled separately below. -/
structure OptionsWithDefaults where
  reducerPath : String
  tagTypes : List String
  keepUnusedDataFor : Int
  refetchOnMountOrArgChange : RefetchValue
  refetchOnFocus : Bool
  refetchOnReconnect : Bool
  invalidationBehavior : InvalidationBehavior
deriving DecidableEq, Repr

/-- `{ reducerPath: 'api', keepUnusedDataFor: 60, ..., ...options,
tagTypes: [...(options.tagTypes || [])] }`: each default survives
exactly when the option is absent, and `tagTypes` is a fresh copy of
the supplied array (or `[]`). -/
def mkOptionsWithDefaults (o : ApiOptions) : OptionsWithDefaults where
  reducerPath := o.reducerPath.getD "api"
  tagTypes := o.tagTypes.getD []
  keepUnusedDataFor := o.keepUnusedDataFor.getD 60
  refetchOnMountOrArgChange := o.refetchOnMountOrArgChange.getD (RefetchValue.asBool false)
  refetchOnFocus := o.refetchOnFocus.getD false
  refetchOnReconnect := o.refetchOnReconnect.getD false
  invalidationBehavior := o.invalidationBehavior.getD InvalidationBehavior.delayed

/-- A module passed to `buildCreateApi`, identified by its name; its
`init` is modelled by the `InitCall` record of the arguments it
receives, and its `injectEndpoint` by the `moduleInjectLog`. -/
structure Module where
  name : String
deriving DecidableEq, Repr

/-- One call `m.init(api, optionsWithDefaults, context)` (lines
431–433 of `part_001`): the module it was made on, the
options-with-defaults it received, and the uid identifying the shared
`api`/`context` pair it received. -/
structure InitCall where
  moduleName : String
  options : OptionsWithDefaults
  apiUid : Nat
deriving DecidableEq, Repr

/-- What one `baseCreateApi` call produces: the returned `api` (the
state after injecting `options.endpoints`), the error thrown during
that injection if any, the log of `init` calls, and the
options-with-defaults. -/
structure CreateApiResult where
  api : ApiState
  error : Option String
  initCalls : List InitCall
  optionsWithDefaults : OptionsWithDefaults
deriving Repr

/-- `baseCreateApi` (lines 346–502 of `part_001`): builds
`optionsWithDefaults` and the context (its `apiUid` is a fresh
`nanoid()`, here a parameter `uid`), initializes every module in order,
then returns `api.injectEndpoints({ endpoints: options.endpoints })`. -/
def baseCreateApi (dev : Bool) (modules : List Module) (uid : Nat)
    (options : ApiOptions) : CreateApiResult :=
  let owd := mkOptionsWithDefaults options
  let st0 : ApiState :=
    { endpointDefinitions := []
      tagTypes := owd.tagTypes
      moduleInjectLog := []
      apiUid := uid }
  let initCalls := modules.map (fun m =>
    { moduleName := m.name, options := owd, apiUid := uid : InitCall })
  let res := injectEndpoints dev modules.length { endpoints := options.endpoints } st0
  { api := res.1
    error := res.2
    initCalls := initCalls
    optionsWithDefaults := owd }

/-- The argument of an `enhanceEndpoints` call.  A partial definition
is modelled by its effect on the stored definition: both the callback
form (which mutates the definition it is handed) and the object form
(`Object.assign` into the stored definition) update the stored object,
and both are a no-op on the registry when the name is absent (the
object form then assigns into a discarded fresh `{}`). -/
structure EnhanceArgs where
  addTagTypes : Option (List String) := none
  endpoints : Option (List (String × (Definition → Definition))) := none

/-- Applies an update to the definition stored under a key, when
present. -/
def mapKey (l : List (String × Definition)) (n : String) (f : Definition → Definition) :
    List (String × Definition) :=
  match getKey l n with
  | none => l
  | some d => setKey l n (f d)

/-- `enhanceEndpoints` (lines 405–428 of `part_001`): appends each
`addTagTypes` entry not already in `optionsWithDefaults.tagTypes`, then
merges partial definitions into existing entries of
`context.endpointDefinitions`, and returns the `api` object itself. -/
def enhanceEndpoints (st : ApiState) (args : EnhanceArgs) : ApiState :=
  let tags :=
    match args.addTagTypes with
    | none => st.tagTypes
    | some l => l.foldl (fun acc eT => if eT ∈ acc then acc else acc ++ [eT]) st.tagTypes
  let defs :=
    match args.endpoints with
    | none => st.endpointDefinitions
    | some es => es.foldl (fun ds p => mapKey ds p.1 p.2) st.endpointDefinitions
  { st with tagTypes := tags, endpointDefinitions := defs }

/-- The placeholder `batch` method of the context (lines 392–395 of
`part_001`): `batch(fn) { fn() }`.  The callback is modelled as a state
transformer so that its invocations are observable; `batch` applies it
to the current state once and returns `undefined` (here `Unit`). -/
def contextBatch {σ : Type} (fn : σ → σ) (s : σ) : σ × Unit :=
  (fn s, ())

/-! ### The `serializeQueryArgs` closure of `optionsWithDefaults`

Lines 362–386 of `part_001`.  `Arg` is the dynamic type of query
arguments.  `defaultSerializeQueryArgs` lives in a separate source file
and is treated as an arbitrary function; an endpoint-level
`serializeQueryArgs` may return a string or anything else (an object or
another primitive), modelled by `SQAResult`. -/

/-- What an endpoint-level `serializeQueryArgs` returns: a string, or a
non-string value (object or other primitive) of dynamic type `Arg`. -/
inductive SQAResult (Arg : Type) where
  | str : String → SQAResult Arg
  | other : Arg → SQAResult Arg

/-- The argument record handed to a `serializeQueryArgs`
implementation; the `endpointDefinition` field is represented by
passing the definition's optional `serializeQueryArgs` member
separately (`some` models `'serializeQueryArgs' in
queryArgsApi.endpointDefinition`). -/
structure QueryArgsApi (Arg : Type) where
  queryArgs : Arg
  endpointName : String

/-- The `serializeQueryArgs` function installed in
`optionsWithDefaults`: prefers the endpoint definition's own function
(re-serializing a non-string result through
`defaultSerializeQueryArgs` with `queryArgs` replaced by that result),
then the `createApi` option, then `defaultSerializeQueryArgs`. -/
def installedSerializeQueryArgs {Arg : Type}
    (defaultSerializeQueryArgs : QueryArgsApi Arg → String)
    (optionsSQA : Option (QueryArgsApi Arg → String))
    (endpointSQA : Option (QueryArgsApi Arg → SQAResult Arg))
    (queryArgsApi : QueryArgsApi Arg) : String :=
  match endpointSQA with
  | some endpointFn =>
      match endpointFn queryArgsApi with
      | SQAResult.str s => s
      | SQAResult.other r =>
          defaultSerializeQueryArgs { queryArgsApi with queryArgs := r }
  | none =>
      match optionsSQA with
      | some optionsFn => optionsFn queryArgsApi
      | none => defaultSerializeQueryArgs queryArgsApi

/-! ### The memoized `extractRehydrationInfo` and `hasRehydrationInfo`

Lines 347–351 and 396–400 of `part_001`.  `weakMapMemoize` (from the
external `reselect` package) caches results keyed on the identity of
the action object; actions are modelled as a type `A` with decidable
equality and the cache as an explicit association list threaded
through each call.  `Option B` models the
`undefined | CombinedState<...>` return type, with `none` for
`undefined`/`null`. -/

/-- A memoization cache: pairs of already-seen argument and stored
result. -/
def cacheFind {A B : Type} [DecidableEq A] (c : List (A × B)) (a : A) : Option B :=
  (c.find? (fun p => p.1 = a)).map Prod.snd

/-- The caches of the two memoized context functions. -/
structure RehydrationCtx (A B : Type) where
  extractCache : List (A × Option B) := []
  hasCache : List (A × Bool) := []

/-- The function being memoized at lines 347–351:
`options.extractRehydrationInfo?.(action, { reducerPath:
options.reducerPath ?? 'api' })`. -/
def rehydrateBase {A B : Type} (extractOpt : Option (A → String → Option B))
    (reducerPath : Option String) (a : A) : Option B :=
  match extractOpt with
  | none => none
  | some f => f a (reducerPath.getD "api")

/-- `context.extractRehydrationInfo`: the memoization of `base`.
Returns the cached result when the action has been seen, otherwise
computes and caches it. -/
def ctxExtractRehydrationInfo {A B : Type} [DecidableEq A]
    (base : A → Option B) (ctx : RehydrationCtx A B) (a : A) :
    Option B × RehydrationCtx A B :=
  match cacheFind ctx.extractCache a with
  | some r => (r, ctx)
  | none =>
      let r := base a
      (r, { ctx with extractCache := ctx.extractCache ++ [(a, r)] })

/-- `context.hasRehydrationInfo`: the memoization of
`(action) => extractRehydrationInfo(action) != null`; a miss invokes
the memoized `extractRehydrationInfo`, updating its cache too. -/
def ctxHasRehydrationInfo {A B : Type} [DecidableEq A]
    (base : A → Option B) (ctx : RehydrationCtx A B) (a : A) :
    Bool × RehydrationCtx A B :=
  match cacheFind ctx.hasCache a with
  | some r => (r, ctx)
  | none =>
      let res := ctxExtractRehydrationInfo base ctx a
      let r := res.1.isSome
      (r, { res.2 with hasCache := res.2.hasCache ++ [(a, r)] })

/-- The invariant of the two caches: every stored entry agrees with
the memoized function.  It holds for the fresh context built by
`baseCreateApi` and is preserved by both context functions. -/
def ConsistentCtx {A B : Type} [DecidableEq A] (base : A → Option B)
    (ctx : RehydrationCtx A B) : Prop :=
  (∀ p ∈ ctx.extractCache, p.2 = base p.1) ∧
    (∀ p ∈ ctx.hasCache, p.2 = (base p.1).isSome)

/-! ### Counting module `injectEndpoint` calls -/

/-- How many times a given call (module index, endpoint name,
definition) occurs in the log. -/
def countCalls (log : List (Nat × String × Definition))
    (e : Nat × String × Definition) : Nat :=
  (log.filter (fun x => x = e)).length

/-- How many logged calls concern a given endpoint name. -/
def countName (log : List (Nat × String × Definition)) (n : String) : Nat :=
  (log.filter (fun x => x.2.1 = n)).length

@[simp]
theorem countCalls_append (l l' : List (Nat × String × Definition))
    (e : Nat × String × Definition) :
    countCalls (l ++ l') e = countCalls l e + countCalls l' e := by
  simp [countCalls, List.filter_append]

@[simp]
theorem countName_append (l l' : List (Nat × String × Definition)) (n : String) :
    countName (l ++ l') n = countName l n + countName l' n := by
  simp [countName, List.filter_append]

theorem countCalls_moduleCalls_self (numModules : Nat) (n : String) (d : Definition)
    (i : Nat) :
    countCalls (moduleCalls numModules n d) (i, n, d) =
      if i < numModules then 1 else 0 := by
  induction numModules with
  | zero => simp [moduleCalls, countCalls]
  | succ m ih =>
      have hsplit : moduleCalls (m + 1) n d = moduleCalls m n d ++ [(m, n, d)] := by
        simp [moduleCalls, List.range_succ]
      rw [hsplit, countCalls_append, ih]
      by_cases h : i = m
      · subst h
        simp [countCalls]
      · have hone : countCalls [(m, n, d)] (i, n, d) = 0 := by
          have hne : ((m, n, d) : Nat × String × Definition) ≠ (i, n, d) := by
            intro hc
            exact h (congrArg Prod.fst hc).symm
          simp [countCalls, hne]
        rw [hone]
        split_ifs <;> omega

theorem countCalls_moduleCalls_ne (numModules : Nat) (m n : String)
    (d' d : Definition) (i : Nat) (hm : m ≠ n) :
    countCalls (moduleCalls numModules m d') (i, n, d) = 0 := by
  have hnil : (moduleCalls numModules m d').filter (fun x => x = (i, n, d)) = [] := by
    rw [List.filter_eq_nil_iff]
    intro x hx
    rw [moduleCalls, List.mem_map] at hx
    obtain ⟨j, -, rfl⟩ := hx
    simp only [Prod.mk.injEq, decide_eq_true_eq, not_and]
    intro _ h
    exact absurd h hm
  simp [countCalls, hnil]

theorem countName_moduleCalls_ne (numModules : Nat) (m n : String) (d' : Definition)
    (hm : m ≠ n) :
    countName (moduleCalls numModules m d') n = 0 := by
  have hnil : (moduleCalls numModules m d').filter (fun x => x.2.1 = n) = [] := by
    rw [List.filter_eq_nil_iff]
    intro x hx
    rw [moduleCalls, List.mem_map] at hx
    obtain ⟨j, -, rfl⟩ := hx
    simpa using hm
  simp [countName, hnil]

/-! ### Structural lemmas about the registration loop -/

theorem injectLoop_cons (dev : Bool) (ov : OverrideExisting) (numModules : Nat)
    (m : String) (d : Definition) (rest : List (String × Definition)) (st : ApiState) :
    injectLoop dev ov numModules ((m, d) :: rest) st =
      if ov ≠ OverrideExisting.isTrue ∧ m ∈ keys st.endpointDefinitions then
        if ov = OverrideExisting.isThrow then
          (st, some ("called injectEndpoints to override already-existing endpointName "
            ++ m ++ " without specifying overrideExisting: true"))
        else injectLoop dev ov numModules rest st
      else
        match (if dev then devInfiniteQueryCheck m d else none) with
        | some e => (st, some e)
        | none =>
            injectLoop dev ov numModules rest
              { st with
                endpointDefinitions := setKey st.endpointDefinitions m d
                moduleInjectLog := st.moduleInjectLog ++ moduleCalls numModules m d } := rfl

theorem injectLoop_cons_skip (dev : Bool) (ov : OverrideExisting) (numModules : Nat)
    (m : String) (d : Definition) (rest : List (String × Definition)) (st : ApiState)
    (h1 : ov ≠ OverrideExisting.isTrue) (h2 : m ∈ keys st.endpointDefinitions)
    (h3 : ov ≠ OverrideExisting.isThrow) :
    injectLoop dev ov numModules ((m, d) :: rest) st =
      injectLoop dev ov numModules rest st := by
  rw [injectLoop_cons, if_pos ⟨h1, h2⟩, if_neg h3]

theorem injectLoop_cons_throw (dev : Bool) (numModules : Nat)
    (m : String) (d : Definition) (rest : List (String × Definition)) (st : ApiState)
    (h2 : m ∈ keys st.endpointDefinitions) :
    injectLoop dev OverrideExisting.isThrow numModules ((m, d) :: rest) st =
      (st, some ("called injectEndpoints to override already-existing endpointName "
        ++ m ++ " without specifying overrideExisting: true")) := by
  rw [injectLoop_cons, if_pos ⟨by simp, h2⟩, if_pos rfl]

theorem injectLoop_cons_store (ov : OverrideExisting) (numModules : Nat)
    (m : String) (d : Definition) (rest : List (String × Definition)) (st : ApiState)
    (hc : ¬(ov ≠ OverrideExisting.isTrue ∧ m ∈ keys st.endpointDefinitions)) :
    injectLoop false ov numModules ((m, d) :: rest) st =
      injectLoop false ov numModules rest
        { st with
          endpointDefinitions := setKey st.endpointDefinitions m d
          moduleInjectLog := st.moduleInjectLog ++ moduleCalls numModules m d } := by
  rw [injectLoop_cons, if_neg hc]
  rfl

/-- In production mode and with `overrideExisting` other than
`'throw'`, the registration loop never throws. -/
theorem injectLoop_no_error (ov : OverrideExisting) (numModules : Nat)
    (hov : ov ≠ OverrideExisting.isThrow) (entries : List (String × Definition))
    (st : ApiState) :
    (injectLoop false ov numModules entries st).2 = none := by
  induction entries generalizing st with
  | nil => rfl
  | cons p rest ih =>
      obtain ⟨m, d⟩ := p
      by_cases hc : ov ≠ OverrideExisting.isTrue ∧ m ∈ keys st.endpointDefinitions
      · rw [injectLoop_cons_skip _ _ _ _ _ _ _ hc.1 hc.2 hov]
        exact ih _
      · rw [injectLoop_cons_store _ _ _ _ _ _ hc]
        exact ih _

/-- The loop never touches `apiUid` or `tagTypes`. -/
theorem injectLoop_preserves (dev : Bool) (ov : OverrideExisting) (numModules : Nat)
    (entries : List (String × Definition)) (st : ApiState) :
    ((injectLoop dev ov numModules entries st).1).apiUid = st.apiUid ∧
      ((injectLoop dev ov numModules entries st).1).tagTypes = st.tagTypes := by
  induction entries generalizing st with
  | nil => exact ⟨rfl, rfl⟩
  | cons p rest ih =>
      obtain ⟨m, d⟩ := p
      rw [injectLoop_cons]
      by_cases hc : ov ≠ OverrideExisting.isTrue ∧ m ∈ keys st.endpointDefinitions
      · rw [if_pos hc]
        by_cases ht : ov = OverrideExisting.isThrow
        · rw [if_pos ht]
          exact ⟨rfl, rfl⟩
        · rw [if_neg ht]
          exact ih st
      · rw [if_neg hc]
        cases hdev : (if dev then devInfiniteQueryCheck m d else none) with
        | some e => exact ⟨rfl, rfl⟩
        | none => exact ih _

/-- Keys of the registry only accumulate. -/
theorem injectLoop_keys_mono (dev : Bool) (ov : OverrideExisting) (numModules : Nat)
    (n : String) (entries : List (String × Definition)) (st : ApiState)
    (h : n ∈ keys st.endpointDefinitions) :
    n ∈ keys ((injectLoop dev ov numModules entries st).1).endpointDefinitions := by
  induction entries generalizing st with
  | nil => exact h
  | cons p rest ih =>
      obtain ⟨m, d⟩ := p
      rw [injectLoop_cons]
      by_cases hc : ov ≠ OverrideExisting.isTrue ∧ m ∈ keys st.endpointDefinitions
      · rw [if_pos hc]
        by_cases ht : ov = OverrideExisting.isThrow
        · rw [if_pos ht]
          exact h
        · rw [if_neg ht]
          exact ih st h
      · rw [if_neg hc]
        cases hdev : (if dev then devInfiniteQueryCheck m d else none) with
        | some e => exact h
        | none => exact ih _ (mem_keys_setKey_of_mem _ _ _ _ h)

/-- An endpoint name that appears in none of the processed entries
keeps its registry binding, and no module call concerning it is
logged. -/
theorem injectLoop_untouched (dev : Bool) (ov : OverrideExisting) (numModules : Nat)
    (n : String) (entries : List (String × Definition)) (st : ApiState)
    (h : n ∉ entries.map Prod.fst) :
    getKey ((injectLoop dev ov numModules entries st).1).endpointDefinitions n =
        getKey st.endpointDefinitions n ∧
      ∀ i d, countCalls ((injectLoop dev ov numModules entries st).1).moduleInjectLog (i, n, d) =
        countCalls st.moduleInjectLog (i, n, d) := by
  induction entries generalizing st with
  | nil => exact ⟨rfl, fun _ _ => rfl⟩
  | cons p rest ih =>
      obtain ⟨m, d'⟩ := p
      simp only [List.map_cons, List.mem_cons, not_or] at h
      obtain ⟨hmn, hrest⟩ := h
      rw [injectLoop_cons]
      by_cases hc : ov ≠ OverrideExisting.isTrue ∧ m ∈ keys st.endpointDefinitions
      · rw [if_pos hc]
        by_cases ht : ov = OverrideExisting.isThrow
        · rw [if_pos ht]
          exact ⟨rfl, fun _ _ => rfl⟩
        · rw [if_neg ht]
          exact ih _ hrest
      · rw [if_neg hc]
        cases hdev : (if dev then devInfiniteQueryCheck m d' else none) with
        | some e => exact ⟨rfl, fun _ _ => rfl⟩
        | none =>
            obtain ⟨ih1, ih2⟩ := ih
              { st with
                endpointDefinitions := setKey st.endpointDefinitions m d'
                moduleInjectLog := st.moduleInjectLog ++ moduleCalls numModules m d' }
              hrest
            refine ⟨?_, ?_⟩
            · rw [ih1]
              exact getKey_setKey_ne _ _ _ _ hmn
            · intro i d
              rw [ih2 i d]
              simp [countCalls_moduleCalls_ne numModules m n d' d i (fun he => hmn he.symm)]


/-- In production mode, with `overrideExisting` other than `'throw'`
and pairwise-distinct entry names (as `Object.entries` yields), every
entry whose name is not yet registered — or any entry at all when
`overrideExisting === true` — ends up in the registry under its name,
and is announced to each initialized module exactly once. -/
theorem injectLoop_stores (ov : OverrideExisting) (numModules : Nat)
    (hov : ov ≠ OverrideExisting.isThrow)
    (entries : List (String × Definition)) (st : ApiState)
    (hnd : (entries.map Prod.fst).Nodup)
    (n : String) (d : Definition) (hmem : (n, d) ∈ entries)
    (hfresh : ov = OverrideExisting.isTrue ∨ n ∉ keys st.endpointDefinitions) :
    getKey ((injectLoop false ov numModules entries st).1).endpointDefinitions n = some d ∧
      ∀ i, i < numModules →
        countCalls ((injectLoop false ov numModules entries st).1).moduleInjectLog (i, n, d) =
          countCalls st.moduleInjectLog (i, n, d) + 1 := by
  induction entries generalizing st with
  | nil => cases hmem
  | cons p rest ih =>
      obtain ⟨m, d'⟩ := p
      simp only [List.map_cons, List.nodup_cons] at hnd
      obtain ⟨hm_notin, hnd_rest⟩ := hnd
      rcases List.mem_cons.mp hmem with heq | hmem_rest
      · cases heq
        have hc : ¬(ov ≠ OverrideExisting.isTrue ∧ n ∈ keys st.endpointDefinitions) := by
          rcases hfresh with h | h
          · exact fun hx => hx.1 h
          · exact fun hx => h hx.2
        rw [injectLoop_cons_store _ _ _ _ _ _ hc]
        obtain ⟨h1, h2⟩ := injectLoop_untouched false ov numModules n rest
          { st with
            endpointDefinitions := setKey st.endpointDefinitions n d
            moduleInjectLog := st.moduleInjectLog ++ moduleCalls numModules n d }
          hm_notin
        refine ⟨?_, ?_⟩
        · rw [h1]
          exact getKey_setKey_self _ _ _
        · intro i hi
          rw [h2 i d]
          simp [countCalls_moduleCalls_self, hi]
      · have hmn : m ≠ n := fun he => hm_notin (he ▸ List.mem_map_of_mem Prod.fst hmem_rest)
        by_cases hc : ov ≠ OverrideExisting.isTrue ∧ m ∈ keys st.endpointDefinitions
        · rw [injectLoop_cons_skip _ _ _ _ _ _ _ hc.1 hc.2 hov]
          exact ih st hnd_rest hmem_rest hfresh
        · rw [injectLoop_cons_store _ _ _ _ _ _ hc]
          have hfresh2 : ov = OverrideExisting.isTrue ∨
              n ∉ keys (setKey st.endpointDefinitions m d') := by
            rcases hfresh with h | h
            · exact Or.inl h
            · exact Or.inr (not_mem_keys_setKey _ _ _ _ h (Ne.symm hmn))
          obtain ⟨h1, h2⟩ := ih
            { st with
              endpointDefinitions := setKey st.endpointDefinitions m d'
              moduleInjectLog := st.moduleInjectLog ++ moduleCalls numModules m d' }
            hnd_rest hmem_rest hfresh2
          refine ⟨h1, ?_⟩
          intro i hi
          rw [h2 i hi]
          simp [countCalls_moduleCalls_ne numModules m n d' d i hmn]

/-- When `overrideExisting` is not exactly `true`, a name already in
the registry keeps its definition, and no module `injectEndpoint` call
for that name is logged (any dev mode, any entries). -/
theorem injectLoop_existing_kept (dev : Bool) (ov : OverrideExisting) (numModules : Nat)
    (hov : ov ≠ OverrideExisting.isTrue)
    (entries : List (String × Definition)) (st : ApiState)
    (n : String) (hn : n ∈ keys st.endpointDefinitions) :
    getKey ((injectLoop dev ov numModules entries st).1).endpointDefinitions n =
        getKey st.endpointDefinitions n ∧
      countName ((injectLoop dev ov numModules entries st).1).moduleInjectLog n =
        countName st.moduleInjectLog n := by
  induction entries generalizing st with
  | nil => exact ⟨rfl, rfl⟩
  | cons p rest ih =>
      obtain ⟨m, d'⟩ := p
      by_cases hm : m ∈ keys st.endpointDefinitions
      · rw [injectLoop_cons, if_pos ⟨hov, hm⟩]
        by_cases ht : ov = OverrideExisting.isThrow
        · rw [if_pos ht]
          exact ⟨rfl, rfl⟩
        · rw [if_neg ht]
          exact ih st hn
      · have hmn : m ≠ n := fun he => hm (he ▸ hn)
        rw [injectLoop_cons, if_neg (fun hx => hm hx.2)]
        cases hdev : (if dev then devInfiniteQueryCheck m d' else none) with
        | some e => exact ⟨rfl, rfl⟩
        | none =>
            obtain ⟨h1, h2⟩ := ih
              { st with
                endpointDefinitions := setKey st.endpointDefinitions m d'
                moduleInjectLog := st.moduleInjectLog ++ moduleCalls numModules m d' }
              (mem_keys_setKey_of_mem _ _ _ _ hn)
            refine ⟨?_, ?_⟩
            · rw [h1]
              exact getKey_setKey_ne _ _ _ _ (Ne.symm hmn)
            · rw [h2]
              simp [countName_moduleCalls_ne numModules m n d' hmn]

/-- In production mode, `overrideExisting: 'throw'` raises as soon as
one of the supplied names is already registered. -/
theorem injectLoop_throws (numModules : Nat)
    (entries : List (String × Definition)) (st : ApiState)
    (hex : ∃ e ∈ entries, e.1 ∈ keys st.endpointDefinitions) :
    ((injectLoop false OverrideExisting.isThrow numModules entries st).2).isSome = true := by
  induction entries generalizing st with
  | nil =>
      obtain ⟨e, he, -⟩ := hex
      cases he
  | cons p rest ih =>
      obtain ⟨m, d'⟩ := p
      by_cases hm : m ∈ keys st.endpointDefinitions
      · rw [injectLoop_cons_throw _ _ _ _ _ _ hm]
        rfl
      · rw [injectLoop_cons_store _ _ _ _ _ _ (fun hx => hm hx.2)]
        apply ih
        obtain ⟨e, he, hk⟩ := hex
        rcases List.mem_cons.mp he with rfl | hr
        · exact absurd hk hm
        · exact ⟨e, hr, mem_keys_setKey_of_mem _ _ _ _ hk⟩

/-! ### The `addTagTypes` loop of `enhanceEndpoints` -/

/-- The tag types actually appended by the `addTagTypes` loop: the
first occurrence of each entry not already present, tracking that the
array grows while the loop runs. -/
def dedupAgainst (seen : List String) : List String → List String
  | [] => []
  | x :: xs =>
      if x ∈ seen then dedupAgainst seen xs
      else x :: dedupAgainst (seen ++ [x]) xs

theorem foldl_addTagTypes_eq (l : List String) (seen : List String) :
    l.foldl (fun acc eT => if eT ∈ acc then acc else acc ++ [eT]) seen =
      seen ++ dedupAgainst seen l := by
  induction l generalizing seen with
  | nil => simp [dedupAgainst]
  | cons x xs ih =>
      simp only [List.foldl_cons, dedupAgainst]
      by_cases h : x ∈ seen
      · rw [if_pos h, if_pos h, ih]
      · rw [if_neg h, if_neg h, ih]
        simp

theorem dedupAgainst_disjoint_nodup (l : List String) (seen : List String) :
    (∀ x ∈ dedupAgainst seen l, x ∉ seen) ∧ (dedupAgainst seen l).Nodup := by
  induction l generalizing seen with
  | nil => exact ⟨fun x hx => absurd hx (List.not_mem_nil x), List.nodup_nil⟩
  | cons x xs ih =>
      by_cases h : x ∈ seen
      · simpa [dedupAgainst, h] using ih seen
      · obtain ⟨ihdisj, ihnd⟩ := ih (seen ++ [x])
        rw [dedupAgainst, if_neg h]
        refine ⟨?_, ?_⟩
        · intro y hy
          rcases List.mem_cons.mp hy with rfl | hy
          · exact h
          · exact fun hs => ihdisj y hy (List.mem_append_left _ hs)
        · refine List.nodup_cons.mpr ⟨?_, ihnd⟩
          intro hx
          exact ihdisj x hx (List.mem_append_right _ (List.mem_singleton_self x))

theorem dedupAgainst_of_nodup (l : List String) (hl : l.Nodup) (seen : List String) :
    dedupAgainst seen l = l.filter (fun t => t ∉ seen) := by
  induction l generalizing seen with
  | nil => simp [dedupAgainst]
  | cons x xs ih =>
      rw [List.nodup_cons] at hl
      obtain ⟨hx, hxs⟩ := hl
      by_cases h : x ∈ seen
      · rw [dedupAgainst, if_pos h, ih hxs seen]
        simp [h]
      · rw [dedupAgainst, if_neg h, ih hxs (seen ++ [x])]
        have hfil : xs.filter (fun t => t ∉ seen ++ [x]) = xs.filter (fun t => t ∉ seen) := by
          apply List.filter_congr
          intro y hy
          have hyx : y ≠ x := fun he => hx (he ▸ hy)
          simp [List.mem_append, hyx]
        rw [hfil]
        simp [h]

/-! ### Consistency of the memoization caches -/

theorem cacheFind_consistent {A B : Type} [DecidableEq A] (g : A → B)
    (c : List (A × B)) (hc : ∀ p ∈ c, p.2 = g p.1) (a : A) (r : B)
    (h : cacheFind c a = some r) : r = g a := by
  rw [cacheFind] at h
  obtain ⟨pr, hf, hr⟩ := Option.map_eq_some'.mp h
  have hmem : pr ∈ c := List.mem_of_find?_eq_some hf
  have hpa : pr.1 = a := by
    have := List.find?_some hf
    exact of_decide_eq_true this
  rw [← hr, hc pr hmem, hpa]

/-- The memoized `extractRehydrationInfo` returns exactly what the
memoized function returns, and keeps the caches consistent. -/
theorem ctxExtract_spec {A B : Type} [DecidableEq A] (base : A → Option B)
    (ctx : RehydrationCtx A B) (a : A) (h : ConsistentCtx base ctx) :
    (ctxExtractRehydrationInfo base ctx a).1 = base a ∧
      ConsistentCtx base (ctxExtractRehydrationInfo base ctx a).2 := by
  rw [ctxExtractRehydrationInfo]
  cases hf : cacheFind ctx.extractCache a with
  | some r =>
      exact ⟨cacheFind_consistent base ctx.extractCache h.1 a r hf, h⟩
  | none =>
      refine ⟨rfl, ⟨?_, h.2⟩⟩
      intro p hp
      rcases List.mem_append.mp hp with hp | hp
      · exact h.1 p hp
      · rw [List.mem_singleton.mp hp]

/-- The memoized `hasRehydrationInfo` returns exactly whether the
memoized function returns a non-null value, and keeps the caches
consistent. -/
theorem ctxHas_spec {A B : Type} [DecidableEq A] (base : A → Option B)
    (ctx : RehydrationCtx A B) (a : A) (h : ConsistentCtx base ctx) :
    (ctxHasRehydrationInfo base ctx a).1 = (base a).isSome ∧
      ConsistentCtx base (ctxHasRehydrationInfo base ctx a).2 := by
  rw [ctxHasRehydrationInfo]
  cases hf : cacheFind ctx.hasCache a with
  | some r =>
      exact ⟨cacheFind_consistent (fun x => (base x).isSome) ctx.hasCache h.2 a r hf, h⟩
  | none =>
      obtain ⟨he1, he2⟩ := ctxExtract_spec base ctx a h
      refine ⟨?_, ⟨he2.1, ?_⟩⟩
      · show ((ctxExtractRehydrationInfo base ctx a).1).isSome = (base a).isSome
        rw [he1]
      · intro p hp
        rcases List.mem_append.mp hp with hp | hp
        · exact he2.2 p hp
        · rw [List.mem_singleton.mp hp]
          simp [he1]

/-! ## Claim theorems -/

/-- **C1**: `injectEndpoints` acts as an endpoint registry.  Evaluating
`inject.endpoints` with the builder tags every definition with the
definition type of the builder method that created it (`query`,
`mutation`, `infinitequery`), and — in production mode, for a call not
using `overrideExisting: 'throw'` (the raising variant settled by the
`overrideExisting` theorem) — every evaluated definition whose endpoint
name is not already registered, or any definition when
`overrideExisting === true`, is stored in `context.endpointDefinitions`
under its name, and every initialized module's `injectEndpoint` is
called exactly once with that name and definition. -/
theorem injectEndpoints_registers (numModules : Nat) (inject : InjectArgs) (st : ApiState)
    (hov : inject.overrideExisting ≠ OverrideExisting.isThrow)
    (hnd : ((inject.endpoints endpointBuilder).map Prod.fst).Nodup) :
    (∀ x, (endpointBuilder.query x).type = DefinitionType.query ∧
        (endpointBuilder.mutation x).type = DefinitionType.mutation ∧
        (endpointBuilder.infiniteQuery x).type = DefinitionType.infinitequery ∧
        (endpointBuilder.query x).payload = x ∧
        (endpointBuilder.mutation x).payload = x ∧
        (endpointBuilder.infiniteQuery x).payload = x) ∧
    ∀ n d, (n, d) ∈ inject.endpoints endpointBuilder →
      (inject.overrideExisting = OverrideExisting.isTrue ∨ n ∉ keys st.endpointDefinitions) →
      getKey ((injectEndpoints false numModules inject st).1).endpointDefinitions n = some d ∧
      ∀ i, i < numModules →
        countCalls ((injectEndpoints false numModules inject st).1).moduleInjectLog (i, n, d) =
          countCalls st.moduleInjectLog (i, n, d) + 1 := by
  refine ⟨fun x => ⟨rfl, rfl, rfl, rfl, rfl, rfl⟩, ?_⟩
  intro n d hmem hfresh
  exact injectLoop_stores inject.overrideExisting numModules hov
    (inject.endpoints endpointBuilder) st hnd n d hmem hfresh

/-- Witness for `injectEndpoints_registers`: a concrete call with one
query and one mutation endpoint, injected into an empty registry in
front of two modules. -/
theorem injectEndpoints_registers_witness :
    ((OverrideExisting.isFalse ≠ OverrideExisting.isThrow) ∧
      ((([("getPosts", endpointBuilder.query { config := 1 }),
          ("addPost", endpointBuilder.mutation { config := 2 })] :
            List (String × Definition)).map Prod.fst).Nodup)) ∧
    (getKey ((injectEndpoints false 2
        { endpoints := fun b => [("getPosts", b.query { config := 1 }),
            ("addPost", b.mutation { config := 2 })] }
        { endpointDefinitions := [], tagTypes := [], moduleInjectLog := [],
          apiUid := 0 }).1).endpointDefinitions "getPosts" =
        some { payload := { config := 1 }, type := DefinitionType.query } ∧
      ∀ i, i < 2 →
        countCalls ((injectEndpoints false 2
          { endpoints := fun b => [("getPosts", b.query { config := 1 }),
              ("addPost", b.mutation { config := 2 })] }
          { endpointDefinitions := [], tagTypes := [], moduleInjectLog := [],
            apiUid := 0 }).1).moduleInjectLog
          (i, "getPosts", { payload := { config := 1 }, type := DefinitionType.query }) =
        countCalls ([] : List (Nat × String × Definition))
          (i, "getPosts", { payload := { config := 1 }, type := DefinitionType.query }) + 1) :=
  ⟨⟨by decide, by decide⟩,
    (injectEndpoints_registers 2
      { endpoints := fun b => [("getPosts", b.query { config := 1 }),
          ("addPost", b.mutation { config := 2 })] }
      { endpointDefinitions := [], tagTypes := [], moduleInjectLog := [], apiUid := 0 }
      (by decide) (by decide)).2
      "getPosts" { payload := { config := 1 }, type := DefinitionType.query }
      (by decide) (Or.inr (by decide))⟩

/-- **C2**: for every non-empty module list, the `createApi` built by
`buildCreateApi` initializes each module exactly once, in the order the
modules were passed, handing every `init` the same api object (tracked
by its uid), the same options-with-defaults and the same shared
context, and then returns that very api object — the state that also
carries `injectEndpoints`/`enhanceEndpoints` — after injecting
`options.endpoints` into it (an injection that, in production mode,
completes without error). -/
theorem createApi_initializes_modules (modules : List Module) (uid : Nat)
    (options : ApiOptions) (hne : modules ≠ []) :
    (baseCreateApi false modules uid options).initCalls =
        modules.map (fun m =>
          { moduleName := m.name, options := mkOptionsWithDefaults options,
            apiUid := uid }) ∧
    (baseCreateApi false modules uid options).error = none ∧
    (baseCreateApi false modules uid options).api =
      (injectEndpoints false modules.length { endpoints := options.endpoints }
        { endpointDefinitions := []
          tagTypes := (mkOptionsWithDefaults options).tagTypes
          moduleInjectLog := []
          apiUid := uid }).1 ∧
    (baseCreateApi false modules uid options).api.apiUid = uid := by
  refine ⟨rfl, ?_, rfl, ?_⟩
  · exact injectLoop_no_error OverrideExisting.isFalse modules.length (by decide)
      (options.endpoints endpointBuilder) _
  · exact (injectLoop_preserves false OverrideExisting.isFalse modules.length
      (options.endpoints endpointBuilder) _).1

/-- Witness for `createApi_initializes_modules`: one core-like module
and one hooks-like module, one query endpoint. -/
theorem createApi_initializes_modules_witness :
    (([{ name := "coreModule" }, { name := "reactHooksModule" }] : List Module) ≠ []) ∧
    ((baseCreateApi false [{ name := "coreModule" }, { name := "reactHooksModule" }] 5
        { endpoints := fun b => [("getPosts", b.query { config := 1 })] }).initCalls =
      ([{ name := "coreModule" }, { name := "reactHooksModule" }] : List Module).map (fun m =>
        { moduleName := m.name
          options := mkOptionsWithDefaults
            { endpoints := fun b => [("getPosts", b.query { config := 1 })] }
          apiUid := 5 }) ∧
     (baseCreateApi false [{ name := "coreModule" }, { name := "reactHooksModule" }] 5
        { endpoints := fun b => [("getPosts", b.query { config := 1 })] }).error = none ∧
     (baseCreateApi false [{ name := "coreModule" }, { name := "reactHooksModule" }] 5
        { endpoints := fun b => [("getPosts", b.query { config := 1 })] }).api =
       (injectEndpoints false
         ([{ name := "coreModule" }, { name := "reactHooksModule" }] : List Module).length
         { endpoints := fun b => [("getPosts", b.query { config := 1 })] }
         { endpointDefinitions := []
           tagTypes := (mkOptionsWithDefaults
             { endpoints := fun b => [("getPosts", b.query { config := 1 })] }).tagTypes
           moduleInjectLog := []
           apiUid := 5 }).1 ∧
     (baseCreateApi false [{ name := "coreModule" }, { name := "reactHooksModule" }] 5
        { endpoints := fun b => [("getPosts", b.query { config := 1 })] }).api.apiUid = 5) :=
  ⟨by decide,
    createApi_initializes_modules [{ name := "coreModule" }, { name := "reactHooksModule" }] 5
      { endpoints := fun b => [("getPosts", b.query { config := 1 })] } (by decide)⟩

/-- **C3**: when an `injectEndpoints` call supplies an endpoint name
already present in `context.endpointDefinitions`: unless
`overrideExisting` is exactly `true`, the registered definition for
that name is left unchanged and no module `injectEndpoint` call is made
for it; with `overrideExisting: 'throw'` the call raises an error
(production mode) instead of silently skipping; and with
`overrideExisting === true` the freshly evaluated definition replaces
the existing one. -/
theorem injectEndpoints_overrideExisting (dev : Bool) (numModules : Nat)
    (inject : InjectArgs) (st : ApiState) (n : String) :
    (inject.overrideExisting ≠ OverrideExisting.isTrue →
      n ∈ keys st.endpointDefinitions →
      getKey ((injectEndpoints dev numModules inject st).1).endpointDefinitions n =
          getKey st.endpointDefinitions n ∧
        countName ((injectEndpoints dev numModules inject st).1).moduleInjectLog n =
          countName st.moduleInjectLog n) ∧
    (inject.overrideExisting = OverrideExisting.isThrow →
      (∃ e ∈ inject.endpoints endpointBuilder, e.1 ∈ keys st.endpointDefinitions) →
      ((injectEndpoints false numModules inject st).2).isSome = true) ∧
    (inject.overrideExisting = OverrideExisting.isTrue →
      ((inject.endpoints endpointBuilder).map Prod.fst).Nodup →
      ∀ d, (n, d) ∈ inject.endpoints endpointBuilder →
        getKey ((injectEndpoints false numModules inject st).1).endpointDefinitions n =
          some d) := by
  refine ⟨?_, ?_, ?_⟩
  · intro hov hn
    exact injectLoop_existing_kept dev inject.overrideExisting numModules hov
      (inject.endpoints endpointBuilder) st n hn
  · intro hov hex
    rw [show injectEndpoints false numModules inject st =
      injectLoop false inject.overrideExisting numModules
        (inject.endpoints endpointBuilder) st from rfl, hov]
    exact injectLoop_throws numModules (inject.endpoints endpointBuilder) st hex
  · intro hov hnd d hmem
    have hov2 : inject.overrideExisting ≠ OverrideExisting.isThrow := by
      rw [hov]
      decide
    exact (injectLoop_stores inject.overrideExisting numModules hov2
      (inject.endpoints endpointBuilder) st hnd n d hmem (Or.inl hov)).1

/-- Witness for `injectEndpoints_overrideExisting`: the registry
already holds `getPosts`; a `'throw'` call keeps it, logs nothing for
it and raises, while an `overrideExisting: true` call replaces it. -/
theorem injectEndpoints_overrideExisting_witness :
    (getKey ((injectEndpoints false 1
        { endpoints := fun b => [("getPosts", b.query { config := 9 })]
          overrideExisting := OverrideExisting.isThrow }
        { endpointDefinitions :=
            [("getPosts", { payload := { config := 1 }, type := DefinitionType.query })]
          tagTypes := [], moduleInjectLog := [], apiUid := 0 }).1).endpointDefinitions
        "getPosts" =
      getKey [("getPosts",
        { payload := { config := 1 }, type := DefinitionType.query })] "getPosts" ∧
     countName ((injectEndpoints false 1
        { endpoints := fun b => [("getPosts", b.query { config := 9 })]
          overrideExisting := OverrideExisting.isThrow }
        { endpointDefinitions :=
            [("getPosts", { payload := { config := 1 }, type := DefinitionType.query })]
          tagTypes := [], moduleInjectLog := [], apiUid := 0 }).1).moduleInjectLog
        "getPosts" = countName [] "getPosts") ∧
    ((injectEndpoints false 1
        { endpoints := fun b => [("getPosts", b.query { config := 9 })]
          overrideExisting := OverrideExisting.isThrow }
        { endpointDefinitions :=
            [("getPosts", { payload := { config := 1 }, type := DefinitionType.query })]
          tagTypes := [], moduleInjectLog := [], apiUid := 0 }).2).isSome = true ∧
    getKey ((injectEndpoints false 1
        { endpoints := fun b => [("getPosts", b.query { config := 9 })]
          overrideExisting := OverrideExisting.isTrue }
        { endpointDefinitions :=
            [("getPosts", { payload := { config := 1 }, type := DefinitionType.query })]
          tagTypes := [], moduleInjectLog := [], apiUid := 0 }).1).endpointDefinitions
      "getPosts" = some { payload := { config := 9 }, type := DefinitionType.query } :=
  ⟨(injectEndpoints_overrideExisting false 1
      { endpoints := fun b => [("getPosts", b.query { config := 9 })]
        overrideExisting := OverrideExisting.isThrow }
      { endpointDefinitions :=
          [("getPosts", { payload := { config := 1 }, type := DefinitionType.query })]
        tagTypes := [], moduleInjectLog := [], apiUid := 0 } "getPosts").1
      (by decide) (by decide),
   (injectEndpoints_overrideExisting false 1
      { endpoints := fun b => [("getPosts", b.query { config := 9 })]
        overrideExisting := OverrideExisting.isThrow }
      { endpointDefinitions :=
          [("getPosts", { payload := { config := 1 }, type := DefinitionType.query })]
        tagTypes := [], moduleInjectLog := [], apiUid := 0 } "getPosts").2.1
      (by decide)
      ⟨("getPosts", { payload := { config := 9 }, type := DefinitionType.query }),
        by decide, by decide⟩,
   (injectEndpoints_overrideExisting false 1
      { endpoints := fun b => [("getPosts", b.query { config := 9 })]
        overrideExisting := OverrideExisting.isTrue }
      { endpointDefinitions :=
          [("getPosts", { payload := { config := 1 }, type := DefinitionType.query })]
        tagTypes := [], moduleInjectLog := [], apiUid := 0 } "getPosts").2.2
      (by decide) (by decide)
      { payload := { config := 9 }, type := DefinitionType.query } (by decide)⟩

/-- **C4**: the `serializeQueryArgs` installed in the
options-with-defaults resolves in priority order: an endpoint
definition's own `serializeQueryArgs` wins — its string results are
returned as-is and any other result is re-serialized by
`defaultSerializeQueryArgs` with `queryArgs` replaced by that result —
then the `createApi` option, then `defaultSerializeQueryArgs`. -/
theorem serializeQueryArgs_priority {Arg : Type}
    (defaultSQA : QueryArgsApi Arg → String)
    (optionsSQA : Option (QueryArgsApi Arg → String))
    (endpointSQA : Option (QueryArgsApi Arg → SQAResult Arg))
    (queryArgsApi : QueryArgsApi Arg) :
    (∀ f, endpointSQA = some f →
      (∀ s, f queryArgsApi = SQAResult.str s →
        installedSerializeQueryArgs defaultSQA optionsSQA endpointSQA queryArgsApi = s) ∧
      (∀ r, f queryArgsApi = SQAResult.other r →
        installedSerializeQueryArgs defaultSQA optionsSQA endpointSQA queryArgsApi =
          defaultSQA { queryArgsApi with queryArgs := r })) ∧
    (endpointSQA = none → ∀ g, optionsSQA = some g →
      installedSerializeQueryArgs defaultSQA optionsSQA endpointSQA queryArgsApi =
        g queryArgsApi) ∧
    (endpointSQA = none → optionsSQA = none →
      installedSerializeQueryArgs defaultSQA optionsSQA endpointSQA queryArgsApi =
        defaultSQA queryArgsApi) := by
  refine ⟨?_, ?_, ?_⟩
  · intro f hf
    subst hf
    constructor
    · intro s hs
      simp [installedSerializeQueryArgs, hs]
    · intro r hr
      simp [installedSerializeQueryArgs, hr]
  · intro he g hg
    subst he
    subst hg
    rfl
  · intro he hg
    subst he
    subst hg
    rfl

/-- Witness for `serializeQueryArgs_priority`: with query args over
`Nat`, an endpoint-level function returning a non-string subset `7` is
re-serialized through the default serializer even though an option-level
function is present. -/
theorem serializeQueryArgs_priority_witness :
    ((some (fun _ : QueryArgsApi Nat => SQAResult.other 7) :
        Option (QueryArgsApi Nat → SQAResult Nat)) =
      some (fun _ => SQAResult.other 7)) ∧
    ((fun _ : QueryArgsApi Nat => (SQAResult.other 7 : SQAResult Nat))
        { queryArgs := 3, endpointName := "getPosts" } = SQAResult.other 7) ∧
    installedSerializeQueryArgs
      (fun qa => toString qa.queryArgs ++ qa.endpointName)
      (some (fun _ => "fromOptions"))
      (some (fun _ => SQAResult.other 7))
      { queryArgs := 3, endpointName := "getPosts" } =
      (fun qa : QueryArgsApi Nat => toString qa.queryArgs ++ qa.endpointName)
        { queryArgs := (7 : Nat), endpointName := "getPosts" } :=
  ⟨rfl, rfl,
    ((serializeQueryArgs_priority
      (fun qa => toString qa.queryArgs ++ qa.endpointName)
      (some (fun _ => "fromOptions"))
      (some (fun _ => SQAResult.other 7))
      { queryArgs := 3, endpointName := "getPosts" }).1
      (fun _ => SQAResult.other 7) rfl).2 7 rfl⟩

/-- **C5**: `keepUnusedDataFor` (seconds) defaults to `60`: when the
option is absent the options-with-defaults carry `60`, when it is
supplied the supplied value is used unchanged, and every module `init`
receives exactly these options-with-defaults. -/
theorem keepUnusedDataFor_defaults (o : ApiOptions) (dev : Bool)
    (modules : List Module) (uid : Nat) :
    (o.keepUnusedDataFor = none → (mkOptionsWithDefaults o).keepUnusedDataFor = 60) ∧
    (∀ v, o.keepUnusedDataFor = some v →
      (mkOptionsWithDefaults o).keepUnusedDataFor = v) ∧
    (∀ c ∈ (baseCreateApi dev modules uid o).initCalls,
      c.options.keepUnusedDataFor = (mkOptionsWithDefaults o).keepUnusedDataFor) := by
  refine ⟨?_, ?_, ?_⟩
  · intro h
    simp [mkOptionsWithDefaults, h]
  · intro v h
    simp [mkOptionsWithDefaults, h]
  · intro c hc
    have : (baseCreateApi dev modules uid o).initCalls = modules.map (fun m =>
        { moduleName := m.name, options := mkOptionsWithDefaults o, apiUid := uid }) := rfl
    rw [this, List.mem_map] at hc
    obtain ⟨m, -, rfl⟩ := hc
    rfl

/-- Witness for `keepUnusedDataFor_defaults`: an options object without
`keepUnusedDataFor` yields 60; one supplying 5 yields 5. -/
theorem keepUnusedDataFor_defaults_witness :
    ((({ endpoints := fun b => [("getPosts", b.query { config := 1 })] } :
        ApiOptions).keepUnusedDataFor = none) ∧
      (mkOptionsWithDefaults
        { endpoints := fun b => [("getPosts", b.query { config := 1 })] }).keepUnusedDataFor
        = 60) ∧
    ((({ keepUnusedDataFor := some 5
         endpoints := fun b => [("getPosts", b.query { config := 1 })] } :
        ApiOptions).keepUnusedDataFor = some 5) ∧
      (mkOptionsWithDefaults
        { keepUnusedDataFor := some 5
          endpoints := fun b => [("getPosts", b.query { config := 1 })] }).keepUnusedDataFor
        = 5) :=
  ⟨⟨rfl, (keepUnusedDataFor_defaults
      { endpoints := fun b => [("getPosts", b.query { config := 1 })] }
      false [] 0).1 rfl⟩,
   ⟨rfl, (keepUnusedDataFor_defaults
      { keepUnusedDataFor := some 5
        endpoints := fun b => [("getPosts", b.query { config := 1 })] }
      false [] 0).2.1 5 rfl⟩⟩

/-- **C8**: the placeholder `batch` of the context performs no
scheduling: it applies the callback to the current state exactly once
(the instrumented counter advances by exactly one step) and returns
`undefined`. -/
theorem contextBatch_calls_once {σ : Type} (fn : σ → σ) (s : σ) :
    contextBatch fn s = (fn s, ()) ∧
      ∀ c : Nat, contextBatch (fun k => k + 1) c = (c + 1, ()) :=
  ⟨rfl, fun _ => rfl⟩

/-- **C7**: `enhanceEndpoints` with an `addTagTypes` list appends
exactly the tag types not already present — the first occurrence of
each, in the order given (so for a duplicate-free list it appends
precisely `l.filter (· ∉ tagTypes)`), never an element already in
`tagTypes` — hence a duplicate-free `tagTypes` array stays
duplicate-free; and the call returns the very api object it was made
on (uid, registry and module log untouched by the tag loop). -/
theorem enhanceEndpoints_addTagTypes (st : ApiState) (l : List String)
    (eps : Option (List (String × (Definition → Definition)))) :
    (enhanceEndpoints st { addTagTypes := some l, endpoints := eps }).tagTypes =
        st.tagTypes ++ dedupAgainst st.tagTypes l ∧
    (∀ x ∈ dedupAgainst st.tagTypes l, x ∉ st.tagTypes) ∧
    (st.tagTypes.Nodup →
      (enhanceEndpoints st { addTagTypes := some l, endpoints := eps }).tagTypes.Nodup) ∧
    (l.Nodup →
      (enhanceEndpoints st { addTagTypes := some l, endpoints := eps }).tagTypes =
        st.tagTypes ++ l.filter (fun t => t ∉ st.tagTypes)) ∧
    (∀ args : EnhanceArgs,
      (enhanceEndpoints st args).apiUid = st.apiUid ∧
      (enhanceEndpoints st args).moduleInjectLog = st.moduleInjectLog) := by
  have htags : (enhanceEndpoints st { addTagTypes := some l, endpoints := eps }).tagTypes =
      st.tagTypes ++ dedupAgainst st.tagTypes l := foldl_addTagTypes_eq l st.tagTypes
  obtain ⟨hdisj, hnd⟩ := dedupAgainst_disjoint_nodup l st.tagTypes
  refine ⟨htags, hdisj, ?_, ?_, ?_⟩
  · intro h
    rw [htags]
    exact List.Nodup.append h hnd (fun a ha hb => hdisj a hb ha)
  · intro h
    rw [htags, dedupAgainst_of_nodup l h st.tagTypes]
  · intro args
    exact ⟨rfl, rfl⟩

/-- Witness for `enhanceEndpoints_addTagTypes`: adding
`["User", "Post"]` to existing `["Post"]` appends only `"User"`,
keeping the array duplicate-free. -/
theorem enhanceEndpoints_addTagTypes_witness :
    (enhanceEndpoints
        { endpointDefinitions := [], tagTypes := ["Post"], moduleInjectLog := [], apiUid := 3 }
        { addTagTypes := some ["User", "Post"] }).tagTypes =
      ["Post"] ++ dedupAgainst ["Post"] ["User", "Post"] ∧
    ((["Post"] : List String).Nodup →
      (enhanceEndpoints
        { endpointDefinitions := [], tagTypes := ["Post"], moduleInjectLog := [], apiUid := 3 }
        { addTagTypes := some ["User", "Post"] }).tagTypes.Nodup) ∧
    ((["User", "Post"] : List String).Nodup →
      (enhanceEndpoints
        { endpointDefinitions := [], tagTypes := ["Post"], moduleInjectLog := [], apiUid := 3 }
        { addTagTypes := some ["User", "Post"] }).tagTypes =
        ["Post"] ++ (["User", "Post"] : List String).filter (fun t => t ∉ (["Post"] : List String))) ∧
    (["Post"] : List String).Nodup ∧ (["User", "Post"] : List String).Nodup :=
  ⟨(enhanceEndpoints_addTagTypes
      { endpointDefinitions := [], tagTypes := ["Post"], moduleInjectLog := [], apiUid := 3 }
      ["User", "Post"] none).1,
   (enhanceEndpoints_addTagTypes
      { endpointDefinitions := [], tagTypes := ["Post"], moduleInjectLog := [], apiUid := 3 }
      ["User", "Post"] none).2.2.1,
   (enhanceEndpoints_addTagTypes
      { endpointDefinitions := [], tagTypes := ["Post"], moduleInjectLog := [], apiUid := 3 }
      ["User", "Post"] none).2.2.2.1,
   by decide, by decide⟩

/-- **C6**: the context's `extractRehydrationInfo` is a memoization of
`options.extractRehydrationInfo`: the fresh caches built by
`baseCreateApi` are consistent, repeated applications to the same
action return the same result, `hasRehydrationInfo` returns `true`
exactly when that result is non-null, both calls keep the caches
consistent, and without an `extractRehydrationInfo` option
`hasRehydrationInfo` is `false` for every action. -/
theorem extractRehydrationInfo_memoized {A B : Type} [DecidableEq A]
    (extractOpt : Option (A → String → Option B)) (reducerPath : Option String)
    (ctx : RehydrationCtx A B) (a : A)
    (h : ConsistentCtx (rehydrateBase extractOpt reducerPath) ctx) :
    ConsistentCtx (rehydrateBase extractOpt reducerPath)
      ({ } : RehydrationCtx A B) ∧
    (ctxExtractRehydrationInfo (rehydrateBase extractOpt reducerPath)
        (ctxExtractRehydrationInfo (rehydrateBase extractOpt reducerPath) ctx a).2 a).1 =
      (ctxExtractRehydrationInfo (rehydrateBase extractOpt reducerPath) ctx a).1 ∧
    (ctxHasRehydrationInfo (rehydrateBase extractOpt reducerPath) ctx a).1 =
      ((ctxExtractRehydrationInfo (rehydrateBase extractOpt reducerPath) ctx a).1).isSome ∧
    ConsistentCtx (rehydrateBase extractOpt reducerPath)
      (ctxExtractRehydrationInfo (rehydrateBase extractOpt reducerPath) ctx a).2 ∧
    ConsistentCtx (rehydrateBase extractOpt reducerPath)
      (ctxHasRehydrationInfo (rehydrateBase extractOpt reducerPath) ctx a).2 ∧
    (extractOpt = none →
      (ctxHasRehydrationInfo (rehydrateBase extractOpt reducerPath) ctx a).1 = false) := by
  obtain ⟨he1, he2⟩ := ctxExtract_spec (rehydrateBase extractOpt reducerPath) ctx a h
  obtain ⟨hh1, hh2⟩ := ctxHas_spec (rehydrateBase extractOpt reducerPath) ctx a h
  obtain ⟨hr1, -⟩ := ctxExtract_spec (rehydrateBase extractOpt reducerPath)
    (ctxExtractRehydrationInfo (rehydrateBase extractOpt reducerPath) ctx a).2 a he2
  refine ⟨?_, ?_, ?_, he2, hh2, ?_⟩
  · exact ⟨fun p hp => absurd hp (List.not_mem_nil p),
      fun p hp => absurd hp (List.not_mem_nil p)⟩
  · rw [hr1, he1]
  · rw [hh1, he1]
  · intro hnone
    subst hnone
    rw [hh1]
    rfl

/-- Witness for `extractRehydrationInfo_memoized`: actions are `Nat`,
the option extracts payload `some 42` for action `0` only, the context
is fresh (trivially consistent). -/
theorem extractRehydrationInfo_memoized_witness :
    ConsistentCtx
      (rehydrateBase (some (fun a _ => if a = 0 then some 42 else none)) none)
      ({ } : RehydrationCtx Nat Nat) ∧
    (ctxHasRehydrationInfo
        (rehydrateBase (some (fun a _ => if a = 0 then some 42 else none)) none)
        ({ } : RehydrationCtx Nat Nat) 0).1 =
      ((ctxExtractRehydrationInfo
        (rehydrateBase (some (fun a _ => if a = 0 then some 42 else none)) none)
        ({ } : RehydrationCtx Nat Nat) 0).1).isSome :=
  ⟨⟨fun p hp => absurd hp (List.not_mem_nil p),
     fun p hp => absurd hp (List.not_mem_nil p)⟩,
   (extractRehydrationInfo_memoized
      (some (fun a _ => if a = 0 then some 42 else none)) none
      ({ } : RehydrationCtx Nat Nat) 0
      ⟨fun p hp => absurd hp (List.not_mem_nil p),
       fun p hp => absurd hp (List.not_mem_nil p)⟩).2.2.1⟩
